import Mathlib

/-!
Verification development for the relay discovery crawler
(sources `src/relays.rs`, `src/relay_manager.rs`, `src/main.rs`).

The `Relays` structure embeds `Relays` from `src/relays.rs`
(a `HashSet<Url>`; modelled as a duplicate-free list of serialized
URLs, in an arbitrary iteration order).  The crawl loop of
`RelayManager::wait_and_handle_messages` from `src/relay_manager.rs`
is embedded as a step function over an explicit state, consuming a
finite trace of notifications.
-/

/-- Characters allowed in a URL scheme (letters, digits, `+`, `-`, `.`),
following the generic URI syntax enforced by the external parser. -/
def isSchemeChar (c : Char) : Bool :=
  c.isAlpha || c.isDigit || c == '+' || c == '-' || c == '.'

/-- Split a character list at the first occurrence of `"://"`,
returning the part before and the part after. -/
def splitSchemeAux : List Char → Option (List Char × List Char)
  | [] => none
  | ':' :: '/' :: '/' :: rest => some ([], rest)
  | c :: cs => (splitSchemeAux cs).map (fun p => (c :: p.1, p.2))

/-- Models the external URL parser (`nostr_sdk::prelude::Url::parse`, an
out-of-scope collaborator specified at its interface: "parses raw as a
network address; on parse failure, returns false and has no effect" and
"EndpointAddress — a normalized network address (scheme + host + path)").
The input must have the shape `scheme://rest` with a wellformed nonempty
scheme and nonempty rest; normalization appends the root path `/` when
`rest` carries no path component, as the WHATWG parser does for the
connection schemes (`ws`, `wss`, ...): the serialization of a parsed URL
always contains a path, i.e. a `/` after `://`. -/
def parseUrl (s : String) : Option String :=
  match splitSchemeAux s.data with
  | none => none
  | some (schemeChars, restChars) =>
    if schemeChars.isEmpty then none
    else if !schemeChars.all isSchemeChar then none
    else if restChars.isEmpty then none
    else if restChars.contains '/' then some s
    else some (s ++ "/")

/-- A serialized URL as stored in the registry. -/
abbrev Url := String

/-- Embeds `Relays` (src/relays.rs): a deduplicated collection of
encountered relay URLs.  The Rust `HashSet<Url>` is modelled as a list
without duplicates whose order stands for the (arbitrary) iteration
order of the hash set. -/
structure Relays where
  r : List Url
deriving DecidableEq, Repr

/-- Embeds `Relays::new` / `Relays::default`: the empty registry. -/
def Relays.new : Relays := ⟨[]⟩

/-- Embeds `Relays::add` (src/relays.rs lines 16-25): parse the raw
string; on failure do nothing and return false, on success insert into
the set and return whether the URL was a new member.  Returns the
result flag together with the updated registry. -/
def Relays.add (rs : Relays) (s1 : String) : Bool × Relays :=
  match parseUrl s1 with
  | none => (false, rs)
  | some u => if u ∈ rs.r then (false, rs) else (true, ⟨rs.r ++ [u]⟩)

/-- Embeds `Relays::count`: the size of the set. -/
def Relays.count (rs : Relays) : Nat := rs.r.length

/-- Helper for `Relays.get_some`: iterate over the set, pushing each
element and returning as soon as the accumulated vector has reached
`maxCount` elements (the push happens before the length test, exactly
as in the Rust loop body). -/
def getSomeAux (maxCount : Nat) : List Url → List Url → List Url
  | acc, [] => acc
  | acc, u :: rest =>
    let acc' := acc ++ [u]
    if maxCount ≤ acc'.length then acc' else getSomeAux maxCount acc' rest

/-- Embeds `Relays::get_some` (src/relays.rs lines 31-40): return up to
`maxCount` members of the set, in iteration order. -/
def Relays.get_some (rs : Relays) (maxCount : Nat) : List Url :=
  getSomeAux maxCount [] rs.r

/-- The fixed well-known seed address appended unconditionally by
`Relays::dump` (src/relays.rs line 59). -/
def seedRelayAddr : String := "wss://relay.gnostr.org"

/-- Embeds `Relays::dump` (src/relays.rs lines 51-62) as the list of
printed entries: each member of the set is printed as a
`(index, address)` pair with a counter starting at 0, and the fixed
well-known seed address is printed last with the final counter value. -/
def Relays.dump (rs : Relays) : List (Nat × String) :=
  (rs.r ++ [seedRelayAddr]).enum

/-- A URL is in normalized serialized form when it carries at least
three `/` characters (two from `://` plus at least one from the path).
Every output of `parseUrl` satisfies this; the bare seed literal
`wss://relay.gnostr.org` (no path) does not. -/
def normalizedUrl (u : Url) : Bool := 3 ≤ u.data.count '/'

/-- Wellformedness of a registry state: every member is a normalized
serialized URL.  This is the Lean rendering of the Rust type invariant
of `HashSet<Url>` (members can only be produced by the URL parser). -/
def Relays.WF (rs : Relays) : Prop := ∀ u ∈ rs.r, normalizedUrl u = true

instance (rs : Relays) : Decidable rs.WF := by
  unfold Relays.WF; infer_instance

theorem splitSchemeAux_eq : ∀ {l a b : List Char},
    splitSchemeAux l = some (a, b) → l = a ++ ':' :: '/' :: '/' :: b := by
  intro l
  induction l with
  | nil => intro a b h; simp [splitSchemeAux] at h
  | cons c cs ih =>
    intro a b h
    rw [splitSchemeAux.eq_def] at h
    split at h
    · exact absurd h (by simp)
    · simp only [Option.some.injEq, Prod.mk.injEq] at h
      obtain ⟨ha, hb⟩ := h
      subst ha; subst hb
      rename_i heq
      simpa using heq
    · rw [Option.map_eq_some'] at h
      obtain ⟨p, hp, hcons⟩ := h
      rename_i c' cs' hnot heq
      injection heq with hc hcs
      subst hc; subst hcs
      injection hcons with h1 h2
      subst h1; subst h2
      exact congrArg (List.cons c) (ih hp)

theorem count_slash_eq_zero {a : List Char} (h : a.all isSchemeChar = true) :
    a.count '/' = 0 := by
  rw [List.count_eq_zero]
  intro hmem
  have := List.all_eq_true.mp h '/' hmem
  simp [isSchemeChar] at this

theorem parseUrl_normalized {s u : String} (h : parseUrl s = some u) :
    normalizedUrl u = true := by
  unfold parseUrl at h
  cases hsp : splitSchemeAux s.data with
  | none => rw [hsp] at h; exact absurd h (by simp)
  | some p =>
    obtain ⟨a, b⟩ := p
    rw [hsp] at h
    have hdata : s.data = a ++ ':' :: '/' :: '/' :: b := splitSchemeAux_eq hsp
    simp only [] at h
    split at h
    · exact absurd h (by simp)
    · split at h
      · exact absurd h (by simp)
      · split at h
        · exact absurd h (by simp)
        · have hcount0 : a.count '/' = 0 := by
            rename_i hne hall hre
            rw [Bool.not_eq_true', Bool.not_eq_false] at hall
            exact count_slash_eq_zero hall
          have hsplit : List.count '/' (a ++ ':' :: '/' :: '/' :: b) =
              List.count '/' b + 2 := by
            simp [List.count_append, List.count_cons, hcount0]
          split at h
          · -- rest contains a slash: u = s
            rename_i hcontains
            have hb : 1 ≤ List.count '/' b := by
              rw [Nat.one_le_iff_ne_zero]
              intro h0
              rw [List.count_eq_zero] at h0
              exact h0 (by simpa using hcontains)
            have hu : u = s := by injection h with h'; exact h'.symm
            subst hu
            simp only [normalizedUrl, decide_eq_true_eq, hdata, hsplit]
            omega
          · -- no slash in rest: u = s ++ "/"
            have hu : u = s ++ "/" := by injection h with h'; exact h'.symm
            subst hu
            have hdat : (s ++ "/").data = s.data ++ ['/'] := by
              simp [String.data_append]
            simp only [normalizedUrl, decide_eq_true_eq, hdat, hdata,
              List.count_append, hsplit]
            simp [List.count_cons]

theorem seed_not_normalized : normalizedUrl seedRelayAddr = false := by decide

theorem Relays.add_WF {rs : Relays} (hwf : rs.WF) (s : String) :
    (rs.add s).2.WF := by
  unfold Relays.add
  cases hp : parseUrl s with
  | none => exact hwf
  | some u =>
    by_cases hm : u ∈ rs.r
    · simp only [hm, if_pos]
      exact hwf
    · simp only [hm, if_neg, not_false_iff]
      intro v hv
      rcases List.mem_append.mp hv with hv1 | hv2
      · exact hwf v hv1
      · rw [List.mem_singleton.mp hv2]
        exact parseUrl_normalized hp

theorem seed_not_mem_of_WF {rs : Relays} (hwf : rs.WF) :
    seedRelayAddr ∉ rs.r := by
  intro hmem
  have := hwf seedRelayAddr hmem
  rw [seed_not_normalized] at this
  exact Bool.false_ne_true this

/-- C1: for every wellformed EndpointRegistry state (including the empty
one), the final report produced by dump contains the fixed well-known
seed address `wss://relay.gnostr.org` exactly once among its printed
address entries, regardless of whether that address was discovered
during the crawl (a discovered copy is stored in normalized form
`wss://relay.gnostr.org/` and thus never collides with the appended
bare literal). -/
theorem dump_contains_seed_exactly_once (rs : Relays) (hwf : rs.WF) :
    ((rs.dump).map Prod.snd).count seedRelayAddr = 1 := by
  unfold Relays.dump
  rw [List.enum_map_snd]
  rw [List.count_append]
  rw [List.count_eq_zero.mpr (seed_not_mem_of_WF hwf)]
  decide

/-- C1 witness: evaluated both on the empty registry and on the registry
in which the seed address itself was discovered during the crawl. -/
theorem dump_contains_seed_exactly_once_witness :
    (Relays.new.WF ∧
      ((Relays.new.dump).map Prod.snd).count seedRelayAddr = 1) ∧
    ((Relays.new.add "wss://relay.gnostr.org").2.WF ∧
      (((Relays.new.add "wss://relay.gnostr.org").2.dump).map
          Prod.snd).count seedRelayAddr = 1) :=
  ⟨⟨by decide, dump_contains_seed_exactly_once Relays.new (by decide)⟩,
   ⟨by decide, dump_contains_seed_exactly_once
      (Relays.new.add "wss://relay.gnostr.org").2 (by decide)⟩⟩

theorem getSomeAux_nil (maxCount : Nat) (acc : List Url) :
    getSomeAux maxCount acc [] = acc := rfl

theorem getSomeAux_cons (maxCount : Nat) (acc : List Url) (u : Url)
    (rest : List Url) :
    getSomeAux maxCount acc (u :: rest) =
      if maxCount ≤ (acc ++ [u]).length then acc ++ [u]
      else getSomeAux maxCount (acc ++ [u]) rest := rfl

theorem getSomeAux_length_le {maxCount : Nat} :
    ∀ (l acc : List Url), acc.length < maxCount →
      (getSomeAux maxCount acc l).length ≤ maxCount := by
  intro l
  induction l with
  | nil => intro acc hacc; rw [getSomeAux_nil]; omega
  | cons u rest ih =>
    intro acc hacc
    rw [getSomeAux_cons]
    split
    · rename_i hge
      simp only [List.length_append, List.length_cons, List.length_nil] at hge ⊢
      omega
    · rename_i hlt
      apply ih
      simp only [List.length_append, List.length_cons, List.length_nil] at hlt ⊢
      omega

theorem getSomeAux_length_le_total {maxCount : Nat} :
    ∀ (l acc : List Url),
      (getSomeAux maxCount acc l).length ≤ acc.length + l.length := by
  intro l
  induction l with
  | nil => intro acc; rw [getSomeAux_nil]; simp
  | cons u rest ih =>
    intro acc
    rw [getSomeAux_cons]
    split
    · simp only [List.length_append, List.length_cons, List.length_nil]
      omega
    · have h1 := ih (acc ++ [u])
      simp only [List.length_append, List.length_cons, List.length_nil] at h1 ⊢
      omega

/-- A concrete two-element registry used to evaluate sampling bounds. -/
def sampleDemoRelays : Relays :=
  ((Relays.new.add "wss://a.example").2.add "wss://b.example").2

/-- C2 counterexample: on a registry holding one member, `get_some 0`
returns a one-element vector (the Rust loop pushes before testing the
length bound), so its length exceeds the requested maximum 0. -/
theorem sample_bound_counterexample :
    ¬ (((Relays.new.add "wss://a.example").2.get_some 0).length ≤ 0) := by
  decide

/-- C2 (amended): for every registry state, `get_some maxCount` returns
at most `maxCount` members whenever `maxCount ≥ 1`, and never more than
`count()` members (for `maxCount = 0` on a nonempty registry it returns
exactly one member). -/
theorem sample_length_bounds (rs : Relays) (maxCount : Nat) :
    (1 ≤ maxCount → (rs.get_some maxCount).length ≤ maxCount) ∧
    (rs.get_some maxCount).length ≤ rs.count := by
  constructor
  · intro h1
    unfold Relays.get_some
    exact getSomeAux_length_le rs.r [] (by simpa using h1)
  · unfold Relays.get_some Relays.count
    simpa using getSomeAux_length_le_total rs.r []

/-- C2 witness: the amended bounds evaluated on a concrete two-element
registry with requested maximum 1. -/
theorem sample_length_bounds_witness :
    (sampleDemoRelays.get_some 1).length ≤ 1 ∧
    (sampleDemoRelays.get_some 1).length ≤ sampleDemoRelays.count :=
  ⟨(sample_length_bounds sampleDemoRelays 1).1 (by decide),
   (sample_length_bounds sampleDemoRelays 1).2⟩

/-- C6 counterexample: on the registry that already contains the parsed
form of `wss://a.example`, adding that address twice more leaves
`count()` unchanged (both calls find the member present), so the total
increment is 0, not 1. -/
theorem add_twice_counterexample :
    ¬ ((((Relays.new.add "wss://a.example").2.add "wss://a.example").2.add
        "wss://a.example").2.count =
      (Relays.new.add "wss://a.example").2.count + 1) := by
  decide

/-- C6 (amended): for every address string that parses successfully to a
URL not yet in the registry, adding it twice increases `count()` by
exactly 1 in total, and the second `add` call returns false. -/
theorem add_twice_increments_once {rs : Relays} {s : String} {u : Url}
    (hp : parseUrl s = some u) (hmem : u ∉ rs.r) :
    ((rs.add s).2.add s).2.count = rs.count + 1 ∧
    ((rs.add s).2.add s).1 = false := by
  have h1 : rs.add s = (true, ⟨rs.r ++ [u]⟩) := by
    unfold Relays.add
    rw [hp]
    simp [hmem]
  have hmem2 : u ∈ rs.r ++ [u] := List.mem_append_right _ (by simp)
  have h2 : (Relays.mk (rs.r ++ [u])).add s = (false, ⟨rs.r ++ [u]⟩) := by
    unfold Relays.add
    rw [hp]
    simp [hmem2]
  rw [h1, h2]
  unfold Relays.count
  simp

/-- C6 witness: the amended property evaluated on the empty registry and
the address `wss://a.example`. -/
theorem add_twice_increments_once_witness :
    ((Relays.new.add "wss://a.example").2.add "wss://a.example").2.count =
      Relays.new.count + 1 ∧
    ((Relays.new.add "wss://a.example").2.add "wss://a.example").1 = false :=
  @add_twice_increments_once Relays.new "wss://a.example" "wss://a.example/"
    (by decide) (by decide)

/-- C7: for every registry state and every raw string that fails to
parse as a network address, `add` returns false and leaves the registry
unchanged (same state, hence same `count()` and membership). -/
theorem add_parse_failure_no_effect (rs : Relays) (s : String)
    (hp : parseUrl s = none) :
    rs.add s = (false, rs) := by
  unfold Relays.add
  rw [hp]

/-- C7 witness: evaluated on a one-element registry and the malformed
input string `not a url`. -/
theorem add_parse_failure_no_effect_witness :
    (Relays.new.add "wss://a.example").2.add "not a url" =
      (false, (Relays.new.add "wss://a.example").2) :=
  add_parse_failure_no_effect (Relays.new.add "wss://a.example").2
    "not a url" (by decide)

theorem enumFrom_get_last (x : String) :
    ∀ (l : List Url) (n : Nat),
      (List.enumFrom n (l ++ [x])).get? l.length = some (n + l.length, x) := by
  intro l
  induction l with
  | nil => intro n; simp
  | cons u rest ih =>
    intro n
    simp only [List.cons_append, List.enumFrom, List.length_cons,
      List.get?_cons_succ, List.append_eq]
    have harith : n + 1 + rest.length = n + (rest.length + 1) := by omega
    rw [ih (n + 1), harith]

/-- C10: for every registry state with n members, the final report
lists exactly n + 1 entries as (index, address) pairs, the indices are
consecutive from 0 through n, and the fixed seed address occupies the
last index n. -/
theorem dump_shape (rs : Relays) :
    (rs.dump).length = rs.count + 1 ∧
    (rs.dump).map Prod.fst = List.range (rs.count + 1) ∧
    (rs.dump).get? rs.count = some (rs.count, seedRelayAddr) := by
  refine ⟨?_, ?_, ?_⟩
  · unfold Relays.dump Relays.count
    rw [List.enum_length]
    simp
  · unfold Relays.dump Relays.count
    rw [List.enum_map_fst]
    congr 1
    simp
  · unfold Relays.dump Relays.count
    have h := enumFrom_get_last seedRelayAddr rs.r 0
    simp only [Nat.zero_add] at h
    exact h

/-- Embeds the constant `MAX_ACTIVE_RELAYS` (src/relay_manager.rs line 13). -/
def MAX_ACTIVE_RELAYS : Nat := 50

/-- Embeds the constant `PERIOD_START_PAST_SECS` (src/relay_manager.rs
line 14): six hours in seconds. -/
def PERIOD_START_PAST_SECS : Nat := 6 * 60 * 60

/-- Embeds `RelayManager::add_bootstrap_relays_if_needed`
(src/relay_manager.rs lines 39-46): walk the bootstrap list in order;
before each insertion, return immediately when the registry has reached
`MAX_ACTIVE_RELAYS` members. -/
def add_bootstrap_relays_if_needed (rs : Relays) : List String → Relays
  | [] => rs
  | us :: rest =>
    if MAX_ACTIVE_RELAYS ≤ rs.count then rs
    else add_bootstrap_relays_if_needed (rs.add us).2 rest

/-- Sequentially insert every string of a list into the registry. -/
def addAll (rs : Relays) (l : List String) : Relays :=
  l.foldl (fun st us => (st.add us).2) rs

/-- The number of bootstrap entries actually processed before the
capacity check stops the walk. -/
def bootstrapPrefixLen (rs : Relays) : List String → Nat
  | [] => 0
  | us :: rest =>
    if MAX_ACTIVE_RELAYS ≤ rs.count then 0
    else bootstrapPrefixLen (rs.add us).2 rest + 1

theorem addAll_nil (rs : Relays) : addAll rs [] = rs := rfl

theorem addAll_cons (rs : Relays) (us : String) (l : List String) :
    addAll rs (us :: l) = addAll (rs.add us).2 l := rfl

theorem add_bootstrap_nil (rs : Relays) :
    add_bootstrap_relays_if_needed rs [] = rs := rfl

theorem add_bootstrap_cons (rs : Relays) (us : String) (rest : List String) :
    add_bootstrap_relays_if_needed rs (us :: rest) =
      if MAX_ACTIVE_RELAYS ≤ rs.count then rs
      else add_bootstrap_relays_if_needed (rs.add us).2 rest := rfl

theorem bootstrapPrefixLen_nil (rs : Relays) :
    bootstrapPrefixLen rs [] = 0 := rfl

theorem bootstrapPrefixLen_cons (rs : Relays) (us : String)
    (rest : List String) :
    bootstrapPrefixLen rs (us :: rest) =
      if MAX_ACTIVE_RELAYS ≤ rs.count then 0
      else bootstrapPrefixLen (rs.add us).2 rest + 1 := rfl

/-- C8: during seeding, bootstrap addresses are consumed in list order
as a prefix of the bootstrap list; every processed position was reached
with the registry still below the pool capacity 50; and the walk stops
early (leaving the remaining entries unprocessed) only when the
registry has reached capacity. -/
theorem bootstrap_capped_insertion (rs : Relays) (bs : List String) :
    add_bootstrap_relays_if_needed rs bs =
      addAll rs (bs.take (bootstrapPrefixLen rs bs)) ∧
    ((List.range (bootstrapPrefixLen rs bs)).all
      (fun m => decide ((addAll rs (bs.take m)).count < MAX_ACTIVE_RELAYS))
        = true) ∧
    (bootstrapPrefixLen rs bs = bs.length ∨
      MAX_ACTIVE_RELAYS ≤
        (addAll rs (bs.take (bootstrapPrefixLen rs bs))).count) := by
  induction bs generalizing rs with
  | nil =>
    rw [bootstrapPrefixLen_nil, add_bootstrap_nil]
    exact ⟨rfl, by simp, Or.inl rfl⟩
  | cons us rest ih =>
    rw [bootstrapPrefixLen_cons, add_bootstrap_cons]
    by_cases hc : MAX_ACTIVE_RELAYS ≤ rs.count
    · rw [if_pos hc, if_pos hc]
      refine ⟨rfl, by simp, Or.inr ?_⟩
      exact hc
    · rw [if_neg hc, if_neg hc]
      obtain ⟨ihEq, ihAll, ihStop⟩ := ih (rs.add us).2
      refine ⟨?_, ?_, ?_⟩
      · rw [List.take_succ_cons, addAll_cons, ihEq]
      · rw [List.all_eq_true] at ihAll ⊢
        intro m hm
        rw [List.mem_range] at hm
        cases m with
        | zero =>
          simp only [List.take_zero, addAll_nil, decide_eq_true_eq]
          omega
        | succ k =>
          rw [List.take_succ_cons, addAll_cons]
          exact ihAll k (List.mem_range.mpr (by omega))
      · rw [List.take_succ_cons, addAll_cons]
        rcases ihStop with hlen | hcap
        · exact Or.inl (by simp [hlen])
        · exact Or.inr hcap

/-- Embeds the `nostr_sdk` event kinds distinguished by the source
(`Kind` variants referenced in src/relay_manager.rs). -/
inductive Kind where
  | metadata
  | textNote
  | encryptedDirectMessage
  | eventDeletion
  | repost
  | reaction
  | channelCreation
  | channelMetadata
  | channelMessage
  | channelHideMessage
  | channelMuteUser
  | publicChatReserved45
  | publicChatReserved46
  | publicChatReserved47
  | publicChatReserved48
  | publicChatReserved49
  | reporting
  | zapRequest
  | zap
  | authentication
  | nostrConnect
  | longFormTextNote
  | relayList
  | replaceable (k : Nat)
  | ephemeral (k : Nat)
  | parameterizedReplaceable (k : Nat)
  | custom (k : Nat)
  | contactList
  | recommendRelay
deriving DecidableEq, Repr

/-- Embeds the subscription filter built by `RelayManager::subscribe`
(src/relay_manager.rs lines 105-116): the kinds list and the closed
time window endpoints passed to the client. -/
structure SubFilter where
  kinds : List Kind
  since : Nat
  untilTime : Nat
deriving DecidableEq, Repr

/-- Embeds `RelayManager::subscribe` (src/relay_manager.rs lines
105-116): one filter over the kinds `ContactList` and `RecommendRelay`
with the given window endpoints. -/
def subscribeFilter (timeStart timeEnd : Nat) : SubFilter :=
  { kinds := [Kind.contactList, Kind.recommendRelay],
    since := timeStart,
    untilTime := timeEnd }

/-- Embeds the call site in `RelayManager::wait_and_handle_messages`
(src/relay_manager.rs lines 140-143): the window end is the current
time and the window start lies `PERIOD_START_PAST_SECS` in the past. -/
def crawlSubscribeFilter (now : Nat) : SubFilter :=
  subscribeFilter (now - PERIOD_START_PAST_SECS) now

/-- C3 counterexample: at the concrete start time 21600 the issued
subscription does not cover all three discovery-relevant kinds — the
long-form-note kind is absent from the filter. -/
theorem subscribe_kinds_counterexample :
    ¬ (Kind.contactList ∈ (crawlSubscribeFilter 21600).kinds ∧
       Kind.longFormTextNote ∈ (crawlSubscribeFilter 21600).kinds ∧
       Kind.recommendRelay ∈ (crawlSubscribeFilter 21600).kinds) := by
  decide

/-- C3 (amended): the single subscription request issued at crawl start
uses the closed time window from `now − 6h` to `now` and covers exactly
the contact-list and recommend-relay kinds; the long-form-note kind,
although handled as discovery-relevant on receipt, is not part of the
subscription filter. -/
theorem subscribe_window_and_kinds (now : Nat) :
    (crawlSubscribeFilter now).kinds =
      [Kind.contactList, Kind.recommendRelay] ∧
    Kind.longFormTextNote ∉ (crawlSubscribeFilter now).kinds ∧
    (crawlSubscribeFilter now).since = now - PERIOD_START_PAST_SECS ∧
    (crawlSubscribeFilter now).untilTime = now ∧
    (crawlSubscribeFilter now).since ≤ (crawlSubscribeFilter now).untilTime := by
  refine ⟨rfl, ?_, rfl, rfl, ?_⟩
  · intro hmem
    simp [crawlSubscribeFilter, subscribeFilter] at hmem
  · exact Nat.sub_le now PERIOD_START_PAST_SECS

/-- Embeds the event tags: the source only distinguishes
`Tag::PubKey(pk, Option<String>)` (whose optional second field carries
a relay address hint); every other tag shape is ignored by the
extraction loop and collapsed into one constructor. -/
inductive Tag where
  | pubKey (pk : Nat) (relayHint : Option String)
  | otherTag
deriving DecidableEq, Repr

/-- Embeds a decoded event: its kind, tags and raw content. -/
structure Event where
  kind : Kind
  tags : List Tag
  content : String
deriving DecidableEq, Repr

/-- The tag walk shared by the contact-list and long-form-note arms of
`RelayManager::handle_event`: for every `PubKey` tag carrying a hint
string, feed the hint to `Relays::add`. -/
def addTagHints (rs : Relays) (tags : List Tag) : Relays :=
  tags.foldl
    (fun acc t =>
      match t with
      | Tag.pubKey _ (some ss) => (acc.add ss).2
      | _ => acc)
    rs

/-- Embeds `RelayManager::handle_event` (src/relay_manager.rs lines
206-325) restricted to its state effects: contact-list and
long-form-note events feed the hints of their `PubKey` tags into the
registry and update the last-event time; recommend-relay events feed
their raw content into the registry and update the last-event time;
every other kind only prints and leaves the state unchanged.  Returns
the updated registry and last-event time. -/
def handle_event (rs : Relays) (timeLastEvent now : Nat) (e : Event) :
    Relays × Nat :=
  match e.kind with
  | Kind.longFormTextNote => (addTagHints rs e.tags, now)
  | Kind.contactList => (addTagHints rs e.tags, now)
  | Kind.recommendRelay => ((rs.add e.content).2, now)
  | _ => (rs, timeLastEvent)

/-- Embeds `nostr_sdk::RelayStatus` as matched in the quorum check:
`Connected` and `Connecting` are counted, all other statuses
(`Initialized`, `Disconnected`, `Terminated`) fall into the wildcard
arm. -/
inductive RelayStatus where
  | initialStatus
  | connecting
  | connected
  | disconnected
  | terminated
deriving DecidableEq, Repr

/-- Embeds the `RelayMessage` shapes distinguished by the match in
`wait_and_handle_messages`: the end-of-stored-events marker, an event
message (ignored there), and everything else. -/
inductive RelayMsg where
  | endOfStoredEvents
  | eventMsg
  | otherMsg
deriving DecidableEq, Repr

/-- Embeds `RelayPoolNotification`: an event delivery, a relay message
tagged with the reporting connection, or the pool shutdown signal. -/
inductive RelayPoolNotif where
  | eventNotif (url : Url) (e : Event)
  | messageNotif (url : Url) (m : RelayMsg)
  | shutdown
deriving DecidableEq, Repr

/-- The mutable state threaded through one run of
`wait_and_handle_messages`: the endpoint registry, the set of relays
that already signalled end-of-stored-events (`eose_relays`, modelled as
a duplicate-free list), and `time_last_event`. -/
structure LoopState where
  relays : Relays
  eoseRelays : List Url
  timeLastEvent : Nat
deriving DecidableEq, Repr

/-- Hash-set insertion for the end-of-feed set. -/
def insertUrl (l : List Url) (u : Url) : List Url :=
  if u ∈ l then l else l ++ [u]

/-- Embeds the status-counting loop of the quorum check
(src/relay_manager.rs lines 160-169): fold over the pool statuses
incrementing the connected and connecting counters. -/
def countConnectedConnecting (sts : List RelayStatus) : Nat × Nat :=
  sts.foldl
    (fun p st =>
      match st with
      | RelayStatus.connected => (p.1 + 1, p.2)
      | RelayStatus.connecting => (p.1, p.2 + 1)
      | _ => p)
    (0, 0)

/-- The reason the listening loop of `wait_and_handle_messages` ended:
the quorum break, the idle break, the shutdown break, or the
notification stream returning an error from `recv`. -/
inductive ExitReason where
  | quorumStop
  | idleStop
  | shutdownStop
  | streamClosed
deriving DecidableEq, Repr

/-- Embeds the notification dispatch of `wait_and_handle_messages`
(src/relay_manager.rs lines 144-185): an event notification runs
`handle_event` (the external Processor callback has no effect on this
state); an end-of-stored-events message inserts the reporting relay
into the end-of-feed set and breaks with the quorum stop when all
connected-or-connecting relays have signalled and at least one such
relay exists; other relay messages do nothing; a shutdown notification
breaks immediately.  Returns the updated state and the break reason,
if any. -/
def handleNotif (s : LoopState) (now : Nat) (sts : List RelayStatus)
    (n : RelayPoolNotif) : LoopState × Option ExitReason :=
  match n with
  | RelayPoolNotif.eventNotif _ e =>
    let p := handle_event s.relays s.timeLastEvent now e
    ({ s with relays := p.1, timeLastEvent := p.2 }, none)
  | RelayPoolNotif.messageNotif url RelayMsg.endOfStoredEvents =>
    let eose' := insertUrl s.eoseRelays url
    let s' := { s with eoseRelays := eose' }
    let c := countConnectedConnecting sts
    if c.1 + c.2 ≤ eose'.length ∧ 0 < c.1 + c.2
    then (s', some ExitReason.quorumStop)
    else (s', none)
  | RelayPoolNotif.messageNotif _ _ => (s, none)
  | RelayPoolNotif.shutdown => (s, some ExitReason.shutdownStop)

/-- Embeds the idle test run after every notification that did not
itself break (src/relay_manager.rs lines 187-196): more than 20
seconds since the last discovery-relevant event, and at least two
end-of-feed reports. -/
def idleStopCheck (s : LoopState) (now : Nat) : Bool :=
  decide (20 < now - s.timeLastEvent) && decide (2 ≤ s.eoseRelays.length)

/-- One full iteration of the listening loop: dispatch the
notification, then, when it did not break, run the idle test (the
trailing `reconnect` call touches only the external client pool and is
omitted). -/
def loopStep (s : LoopState) (now : Nat) (sts : List RelayStatus)
    (n : RelayPoolNotif) : LoopState × Option ExitReason :=
  match handleNotif s now sts n with
  | (s', some r) => (s', some r)
  | (s', none) =>
    if idleStopCheck s' now then (s', some ExitReason.idleStop)
    else (s', none)

/-- One observation consumed by the loop: the current clock value, the
statuses of the pooled relays, and the received notification. -/
structure LoopInput where
  now : Nat
  statuses : List RelayStatus
  notif : RelayPoolNotif
deriving DecidableEq, Repr

/-- Embeds the `while let Ok(...) = notifications.recv().await` loop:
the input list holds the successful receptions in order; when it is
exhausted, `recv` returns an error (the stream is closed) and the loop
exits with no break having fired. -/
def waitLoop (s : LoopState) : List LoopInput → LoopState × ExitReason
  | [] => (s, ExitReason.streamClosed)
  | i :: rest =>
    match loopStep s i.now i.statuses i.notif with
    | (s', some r) => (s', r)
    | (s', none) => waitLoop s' rest

/-- The client operations issued by `wait_and_handle_messages` after
its loop ends. -/
inductive ClientAction where
  | unsubscribeAll
  | disconnectAll
deriving DecidableEq, Repr

/-- Embeds `RelayManager::wait_and_handle_messages`
(src/relay_manager.rs lines 136-203) after the subscription: run the
listening loop to completion, then issue unsubscribe and disconnect on
the client, in that order, whatever ended the loop. -/
def wait_and_handle_messages (s : LoopState) (inputs : List LoopInput) :
    LoopState × ExitReason × List ClientAction :=
  let p := waitLoop s inputs
  (p.1, p.2, [ClientAction.unsubscribeAll, ClientAction.disconnectAll])

theorem countCC_go :
    ∀ (l : List RelayStatus) (p : Nat × Nat),
      l.foldl
        (fun p st =>
          match st with
          | RelayStatus.connected => (p.1 + 1, p.2)
          | RelayStatus.connecting => (p.1, p.2 + 1)
          | _ => p) p =
      (p.1 + l.countP (· == RelayStatus.connected),
       p.2 + l.countP (· == RelayStatus.connecting)) := by
  intro l
  induction l with
  | nil => intro p; simp
  | cons st rest ih =>
    intro p
    rw [List.foldl_cons, List.countP_cons, List.countP_cons]
    cases st <;> (rw [ih]; simp [Prod.ext_iff]) <;> omega

theorem countConnectedConnecting_eq (sts : List RelayStatus) :
    countConnectedConnecting sts =
      (sts.countP (· == RelayStatus.connected),
       sts.countP (· == RelayStatus.connecting)) := by
  unfold countConnectedConnecting
  rw [countCC_go]
  simp

/-- C4: on an end-of-feed notification the loop breaks with the quorum
stop exactly when, writing E for the size of the end-of-feed set after
inserting the reporting relay and C and K for the numbers of connected
and connecting relays, E is at least C+K and C+K is positive; in
particular with C+K = 0 an end-of-feed report never triggers the
quorum stop. -/
theorem eose_quorum_iff (s : LoopState) (url : Url) (now : Nat)
    (sts : List RelayStatus) :
    ((handleNotif s now sts
        (RelayPoolNotif.messageNotif url RelayMsg.endOfStoredEvents)).2 =
          some ExitReason.quorumStop ↔
      (sts.countP (· == RelayStatus.connected) +
          sts.countP (· == RelayStatus.connecting) ≤
            (insertUrl s.eoseRelays url).length ∧
        0 < sts.countP (· == RelayStatus.connected) +
          sts.countP (· == RelayStatus.connecting))) ∧
    (sts.countP (· == RelayStatus.connected) +
        sts.countP (· == RelayStatus.connecting) = 0 →
      (handleNotif s now sts
        (RelayPoolNotif.messageNotif url RelayMsg.endOfStoredEvents)).2 ≠
          some ExitReason.quorumStop) := by
  have hiff : (handleNotif s now sts
      (RelayPoolNotif.messageNotif url RelayMsg.endOfStoredEvents)).2 =
        some ExitReason.quorumStop ↔
      (sts.countP (· == RelayStatus.connected) +
          sts.countP (· == RelayStatus.connecting) ≤
            (insertUrl s.eoseRelays url).length ∧
        0 < sts.countP (· == RelayStatus.connected) +
          sts.countP (· == RelayStatus.connecting)) := by
    simp only [handleNotif, countConnectedConnecting_eq]
    split
    · rename_i hcond
      exact iff_of_true rfl (by simpa using hcond)
    · rename_i hcond
      exact iff_of_false (by simp) (by simpa using hcond)
  refine ⟨hiff, fun h0 hcontra => ?_⟩
  have := (hiff.mp hcontra).2
  omega

/-- C4 witness: with no pooled relays (C + K = 0), a first end-of-feed
report does not trigger the quorum stop. -/
theorem eose_quorum_iff_witness :
    (handleNotif ⟨Relays.new, [], 0⟩ 0 []
      (RelayPoolNotif.messageNotif "wss://a.example/"
        RelayMsg.endOfStoredEvents)).2 ≠ some ExitReason.quorumStop :=
  (eose_quorum_iff ⟨Relays.new, [], 0⟩ "wss://a.example/" 0 []).2 (by decide)

/-- C5: after a notification whose handling did not itself break the
loop, the iteration ends in the idle stop exactly when strictly more
than 20 seconds have passed since the last discovery-relevant event and
the end-of-feed set holds at least 2 relays; when either part fails
the iteration ends with no break and the loop keeps listening. -/
theorem idle_transition_iff (s : LoopState) (now : Nat)
    (sts : List RelayStatus) (n : RelayPoolNotif) (s' : LoopState)
    (h : handleNotif s now sts n = (s', none)) :
    (loopStep s now sts n = (s', some ExitReason.idleStop) ↔
      (20 < now - s'.timeLastEvent ∧ 2 ≤ s'.eoseRelays.length)) ∧
    (loopStep s now sts n = (s', none) ↔
      ¬ (20 < now - s'.timeLastEvent ∧ 2 ≤ s'.eoseRelays.length)) := by
  unfold loopStep
  rw [h]
  unfold idleStopCheck
  by_cases h1 : 20 < now - s'.timeLastEvent
  · by_cases h2 : 2 ≤ s'.eoseRelays.length
    · simp [h1, h2]
    · simp [h1, h2]
  · simp [h1]

/-- A loop state with two end-of-feed reports already recorded and the
last event at time 0, used to exercise the idle stop. -/
def idleDemoState : LoopState :=
  ⟨Relays.new, ["wss://a.example/", "wss://b.example/"], 0⟩

/-- C5 witness: a non-breaking relay message arriving at time 21 with
two recorded end-of-feed reports ends the iteration in the idle stop. -/
theorem idle_transition_iff_witness :
    loopStep idleDemoState 21 []
      (RelayPoolNotif.messageNotif "wss://a.example/" RelayMsg.otherMsg) =
      (idleDemoState, some ExitReason.idleStop) :=
  (idle_transition_iff idleDemoState 21 []
    (RelayPoolNotif.messageNotif "wss://a.example/" RelayMsg.otherMsg)
    idleDemoState (by decide)).1.mpr (by decide)

/-- C9: whatever trace the loop consumes, when it ends because the
notification stream closed (the receive returned an error), the
unsubscribe and disconnect client actions are still issued before the
call returns; an exhausted stream on any state produces exactly this
fourth exit reason, distinct from the quorum, idle and shutdown
breaks. -/
theorem stream_closed_cleanup (s : LoopState) (inputs : List LoopInput) :
    ((wait_and_handle_messages s inputs).2.1 = ExitReason.streamClosed →
      (wait_and_handle_messages s inputs).2.2 =
        [ClientAction.unsubscribeAll, ClientAction.disconnectAll]) ∧
    waitLoop s [] = (s, ExitReason.streamClosed) :=
  ⟨fun _ => rfl, rfl⟩

/-- C9 witness: the cleanup actions issued on an immediately closed
stream. -/
theorem stream_closed_cleanup_witness :
    (wait_and_handle_messages ⟨Relays.new, [], 0⟩ []).2.2 =
      [ClientAction.unsubscribeAll, ClientAction.disconnectAll] :=
  (stream_closed_cleanup ⟨Relays.new, [], 0⟩ []).1 rfl

/-- C3 witness: the amended filter shape evaluated at the concrete
start time 21600. -/
theorem subscribe_window_and_kinds_witness :
    (crawlSubscribeFilter 21600).kinds =
      [Kind.contactList, Kind.recommendRelay] ∧
    Kind.longFormTextNote ∉ (crawlSubscribeFilter 21600).kinds ∧
    (crawlSubscribeFilter 21600).since = 21600 - PERIOD_START_PAST_SECS ∧
    (crawlSubscribeFilter 21600).untilTime = 21600 ∧
    (crawlSubscribeFilter 21600).since ≤
      (crawlSubscribeFilter 21600).untilTime :=
  subscribe_window_and_kinds 21600
